import Mathlib

/-!
Shallow embedding of the home-assistant bootstrap subsystem:
`homeassistant/bootstrap.py` (component orchestrator and core-config
processor), `homeassistant/util/package.py` (requirement installer) and
`homeassistant/components/logger.py` (log severity filter), together
with proofs of the specified properties.

Python strings are modelled as Lean `String`, Python dicts as
association lists, machine-level details (logging I/O, the actual pip
subprocess, `pkg_resources` scanning) as explicit environment
parameters recording their observable results.
-/

set_option maxHeartbeats 1000000

namespace HA

/-! ### `homeassistant/util/package.py` -/

/-- Environment of one `install_package` call: what the external world
does.  `satTarget`: a distribution satisfying the requirement exists in
the private target directory; `satEnv`: one exists in the ambient
(global + virtual) environment (`pkg_resources.working_set`);
`callResult`: exit status of the pip subprocess, `none` meaning
`subprocess.SubprocessError` is raised when launching it. -/
structure PkgEnv where
  satTarget : Bool
  satEnv : Bool
  callResult : Option Int

/-- `check_package_exists(package, lib_dir)`: scan `lib_dir` (when one
was given) for a satisfying distribution, then the ambient working set.
The `pkg_resources.Requirement.parse` call and its `ValueError`
fallback to the URL fragment both produce a requirement object whose
satisfaction is what `satTarget` / `satEnv` record. -/
def check_package_exists (e : PkgEnv) (hasLibDir : Bool) : Bool :=
  (hasLibDir && e.satTarget) || e.satEnv

/-- Result of `install_package`: the returned boolean and whether the
pip subprocess was invoked. -/
structure InstallResult where
  ok : Bool
  invoked : Bool
  deriving DecidableEq

/-- `install_package(package, upgrade=True, target=None)`; the body
runs under `INSTALL_LOCK` (modelled separately below).  If the package
already exists, return `True` without calling pip; otherwise
`return 0 == subprocess.call(args)`, with `subprocess.SubprocessError`
caught and turned into `False`. -/
def install_package (e : PkgEnv) (hasTarget : Bool) : InstallResult :=
  if check_package_exists e hasTarget then
    ⟨true, false⟩
  else
    match e.callResult with
    | some code => ⟨code == 0, true⟩
    | none => ⟨false, true⟩

/-! ### `INSTALL_LOCK` (`threading.Lock`), interleaving model

Two threads concurrently call `install_package` for the same specifier,
in the scenario of the dedup property: the install, when it runs,
succeeds and makes the distribution visible to `pkg_resources`. -/

/-- Program counter of one thread executing `install_package`:
`start` = before `with INSTALL_LOCK`; `check` = about to run
`check_package_exists`; `run` = about to invoke the pip subprocess;
`unlock` = about to leave the `with` block; `done` = returned. -/
inductive ThreadPC
  | start
  | check
  | run
  | unlock
  | done
  deriving DecidableEq

/-- Shared state of the two threads: the lock (`none` = free, else the
holding thread), each thread's program counter, whether the specifier's
distribution is now visible to `check_package_exists`, and how many pip
invocations have happened. -/
structure LockState where
  lock : Option Bool
  pc : Bool → ThreadPC
  installed : Bool
  installCount : Nat

/-- One interleaving step: `threading.Lock.acquire` proceeds only when
the lock is free; `check_package_exists`, the pip call, and the release
happen while the lock is held. -/
inductive LockStep : LockState → LockState → Prop
  | acquire (st : LockState) (t : Bool) :
      st.pc t = .start → st.lock = none →
      LockStep st { st with lock := some t,
                            pc := fun u => if u = t then .check else st.pc u }
  | checkFound (st : LockState) (t : Bool) :
      st.pc t = .check → st.lock = some t → st.installed = true →
      LockStep st { st with pc := fun u => if u = t then .unlock else st.pc u }
  | checkMissing (st : LockState) (t : Bool) :
      st.pc t = .check → st.lock = some t → st.installed = false →
      LockStep st { st with pc := fun u => if u = t then .run else st.pc u }
  | callPip (st : LockState) (t : Bool) :
      st.pc t = .run → st.lock = some t →
      LockStep st { st with installed := true,
                            installCount := st.installCount + 1,
                            pc := fun u => if u = t then .unlock else st.pc u }
  | release (st : LockState) (t : Bool) :
      st.pc t = .unlock → st.lock = some t →
      LockStep st { st with lock := none,
                            pc := fun u => if u = t then .done else st.pc u }

/-- Initial state: lock free, both threads before their call, package
absent, no pip invocation yet. -/
def lockInit : LockState :=
  ⟨none, fun _ => .start, false, 0⟩

/-- States reachable by interleaving the two threads. -/
def LockReachable (st : LockState) : Prop :=
  Relation.ReflTransGen LockStep lockInit st

/-- A thread is inside the `with INSTALL_LOCK` block. -/
def inCS : ThreadPC → Bool
  | .check => true
  | .run => true
  | .unlock => true
  | _ => false

/-- Inductive invariant of the lock model. -/
def LockInv (st : LockState) : Prop :=
  (∀ t, inCS (st.pc t) = true → st.lock = some t) ∧
  st.installCount ≤ 1 ∧
  (st.installed = true ↔ 1 ≤ st.installCount) ∧
  (∀ t, st.pc t = .run → st.installed = false) ∧
  (∀ t, st.pc t = .unlock ∨ st.pc t = .done → st.installed = true)

/-! A complete concrete interleaving, used by the C9 witness: thread
`false` acquires the lock, finds the package missing, invokes pip and
releases; thread `true` then acquires, finds the package present and
releases without installing.  Each state is written as the exact
successor produced by the corresponding `LockStep` constructor. -/

/-- Thread `false` has acquired the lock. -/
def lockS1 : LockState :=
  { lockInit with lock := some false,
                  pc := fun u => if u = false then .check else lockInit.pc u }

/-- Thread `false` found the package missing and is about to invoke
pip. -/
def lockS2 : LockState :=
  { lockS1 with pc := fun u => if u = false then .run else lockS1.pc u }

/-- Thread `false` has invoked pip: the package is now visible and one
invocation is on record. -/
def lockS3 : LockState :=
  { lockS2 with installed := true,
                installCount := lockS2.installCount + 1,
                pc := fun u => if u = false then .unlock else lockS2.pc u }

/-- Thread `false` has released the lock and returned. -/
def lockS4 : LockState :=
  { lockS3 with lock := none,
                pc := fun u => if u = false then .done else lockS3.pc u }

/-- Thread `true` has acquired the lock. -/
def lockS5 : LockState :=
  { lockS4 with lock := some true,
                pc := fun u => if u = true then .check else lockS4.pc u }

/-- Thread `true` found the package already present: no second pip
invocation. -/
def lockS6 : LockState :=
  { lockS5 with pc := fun u => if u = true then .unlock else lockS5.pc u }

/-- Both concurrent `install_package` calls have returned. -/
def lockFinal : LockState :=
  { lockS6 with lock := none,
                pc := fun u => if u = true then .done else lockS6.pc u }

/-! ### `homeassistant/bootstrap.py`: component orchestrator -/

/-- One options mapping (one configuration section). -/
abbrev Options := List (String × String)

/-- The whole configuration: section name to options mapping. -/
abbrev Config := List (String × Options)

/-- `defaultdict(dict)`-style lookup (`config[domain]` after the
orchestrator has converted the configuration): a missing section
behaves as an empty options mapping. -/
def cfgGet (c : Config) (domain : String) : Options :=
  match c.find? (fun p => p.1 = domain) with
  | some p => p.2
  | none => []

/-- Outcome of invoking a component's `setup(hass, config)` entry
point: it returned a boolean, or it raised. -/
inductive SetupOutcome
  | ok (b : Bool)
  | raised

/-- Component descriptor, as returned by `loader.get_component`:
`DOMAIN`, `DEPENDENCIES`, optional `REQUIREMENTS` (a module without
the attribute is `none`), and the setup entry point as a function of
the configuration object it is handed. -/
structure Component where
  DOMAIN : String
  DEPENDENCIES : List String
  REQUIREMENTS : Option (List String)
  setup : Config → SetupOutcome

/-- Static environment of a bootstrap run: the component registry
(`loader.get_component`), the result `pkg_util.install_package` would
report per requirement, `hass.config.skip_pip`, and the resolver
(`loader.load_order_component`). -/
structure Env where
  reg : String → Component
  installOK : String → Bool
  skip_pip : Bool
  loadOrder : String → List String

/-- Mutable runtime state touched by the orchestrator:
`hass.config.components` (the initialized set, insertion ordered),
the `hass.pool` worker count, and the domains carried by fired
`EVENT_COMPONENT_LOADED` events. -/
structure HassState where
  components : List String
  workers : Nat
  events : List String
  deriving DecidableEq

/-- The `for req in component.REQUIREMENTS` loop of
`_handle_requirements`: the loop's boolean result, paired with the
requirements actually handed to `install_package`, in order (the loop
returns `False` at the first failing requirement, skipping the rest). -/
def installSeq (e : Env) : List String → Bool × List String
  | [] => (true, [])
  | r :: rs =>
    if e.installOK r then
      ((installSeq e rs).1, r :: (installSeq e rs).2)
    else
      (false, [r])

/-- `_handle_requirements(hass, component, name)`: immediately `True`
when `hass.config.skip_pip` is set or the component declares no
`REQUIREMENTS`. -/
def _handle_requirements (e : Env) (c : Component) : Bool × List String :=
  match e.skip_pip, c.REQUIREMENTS with
  | true, _ => (true, [])
  | false, none => (true, [])
  | false, some reqs => installSeq e reqs

/-- Observable outcome of `_setup_component`: the returned boolean, the
resulting state, the `(domain, config)` argument pairs of every
`component.setup` invocation, and the requirements handed to
`install_package`. -/
structure SCRes where
  ok : Bool
  s : HassState
  setupArgs : List (String × Config)
  installs : List String

/-- `homeassistant.components.group.DOMAIN`. -/
def groupDomain : String := "group"

/-- `_setup_component(hass, domain, config)`, line for line:
already-initialized short circuit; `missing_deps` consistency check;
requirement installation; `component.setup(hass, config)` under a
broad `except` converting any raise into `False`; on success append
`component.DOMAIN` to the initialized set, add a worker unless the
component depends on the group domain, and fire
`EVENT_COMPONENT_LOADED`. -/
def _setup_component (e : Env) (domain : String) (config : Config)
    (s : HassState) : SCRes :=
  if domain ∈ s.components then
    ⟨true, s, [], []⟩
  else
    let c := e.reg domain
    let missing_deps := c.DEPENDENCIES.filter (fun dep => dep ∉ s.components)
    if missing_deps ≠ [] then
      ⟨false, s, [], []⟩
    else
      let hr := _handle_requirements e c
      if hr.1 = false then
        ⟨false, s, [], hr.2⟩
      else
        match c.setup config with
        | .raised => ⟨false, s, [(domain, config)], hr.2⟩
        | .ok false => ⟨false, s, [(domain, config)], hr.2⟩
        | .ok true =>
          let s1 : HassState := { s with components := s.components ++ [c.DOMAIN] }
          let s2 : HassState :=
            if groupDomain ∈ c.DEPENDENCIES then s1
            else { s1 with workers := s1.workers + 1 }
          let s3 : HassState := { s2 with events := s2.events ++ [c.DOMAIN] }
          ⟨true, s3, [(domain, config)], hr.2⟩

/-- The `for component in components` loop of `setup_component`: run
`_setup_component` on each resolved domain in order, stopping with
`False` at the first failure. -/
def setupSeq (e : Env) (config : Config) :
    List String → HassState → Bool × HassState
  | [], s => (true, s)
  | d :: ds, s =>
    let r := _setup_component e d config s
    if r.ok then setupSeq e config ds r.s else (false, r.s)

/-- `setup_component(hass, domain, config=None)`: already-initialized
short circuit, `defaultdict(dict)` when no configuration was supplied,
resolver call (empty order = unresolvable, return `False`), then the
per-domain loop. -/
def setup_component (e : Env) (domain : String) (config? : Option Config)
    (s : HassState) : Bool × HassState :=
  if domain ∈ s.components then
    (true, s)
  else
    let config := config?.getD []
    let comps := e.loadOrder domain
    if comps = [] then
      (false, s)
    else
      setupSeq e config comps s

/-- The dependency-order invariant of the initialized set: every
domain's declared dependencies occur strictly before it. -/
def depsRespected (e : Env) (l : List String) : Prop :=
  ∀ i, (h : i < l.length) → ∀ dep ∈ (e.reg l[i]).DEPENDENCIES, dep ∈ l.take i

/-- Transitive dependency relation generated by the registry's
`DEPENDENCIES` declarations. -/
inductive TransDep (e : Env) : String → String → Prop
  | direct {dep d : String} : dep ∈ (e.reg d).DEPENDENCIES → TransDep e dep d
  | tail {a b c : String} : TransDep e a b → TransDep e b c → TransDep e a c

/-! ### `homeassistant/components/logger.py` -/

/-- A value in the `logs` mapping of the logger section: a Python
string (severity name) or the int it is replaced with in place. -/
inductive LVal
  | lstr (s : String)
  | lnum (n : Nat)
  deriving DecidableEq

/-- The `LOGSEVERITY` table. -/
def LOGSEVERITY : String → Option Nat
  | "CRITICAL" => some 50
  | "FATAL" => some 50
  | "ERROR" => some 40
  | "WARNING" => some 30
  | "WARN" => some 30
  | "INFO" => some 20
  | "DEBUG" => some 10
  | "NOTSET" => some 0
  | _ => none

/-- Python `str.upper()` on the ASCII severity names (structural, so
that it evaluates by kernel reduction). -/
def pyUpper (s : String) : String :=
  ⟨s.data.map Char.toUpper⟩

/-- Python `str.startswith(p)` on Lean strings. -/
def startswith (s p : String) : Bool :=
  p.data.isPrefixOf s.data

/-- A log record, as far as the filter reads it: `record.name` (logger
namespace) and `record.levelno` (numeric severity). -/
structure LogRecord where
  name : String
  levelno : Nat

/-- The `logfilter` dict held by a `HomeAssistantLogFilter`:
`logfilter['default']` and the optional `logfilter['logs']`
`OrderedDict`, kept as a list in its iteration order. -/
structure HomeAssistantLogFilter where
  dflt : Nat
  logs : Option (List (String × Nat))

/-- The `for filtername in self.logfilter['logs']` scan: the first
entry whose name is a prefix of `record.name` decides; otherwise fall
through to the default threshold. -/
def filterScan (l : List (String × Nat)) (dflt : Nat) (r : LogRecord) : Bool :=
  match l with
  | [] => r.levelno ≥ dflt
  | (fname, sev) :: rest =>
    if startswith r.name fname then r.levelno ≥ sev
    else filterScan rest dflt r

/-- `HomeAssistantLogFilter.filter(record)`. -/
def HomeAssistantLogFilter.filter (f : HomeAssistantLogFilter)
    (r : LogRecord) : Bool :=
  match f.logs with
  | some l => filterScan l f.dflt r
  | none => r.levelno ≥ f.dflt

/-- Sort key order used by the logger setup:
`sorted(..., key=lambda t: len(t[0]), reverse=True)`, i.e. prefix
length descending (Lean's `insertionSort` is stable, like Python's
`sorted`). -/
def lenDescOrder (p q : String × Nat) : Prop :=
  q.1.data.length ≤ p.1.data.length

instance : DecidableRel lenDescOrder :=
  fun p q => Nat.decLe q.1.data.length p.1.data.length

instance : IsTotal (String × Nat) lenDescOrder :=
  ⟨fun p q => (Nat.le_total q.1.data.length p.1.data.length).elim Or.inl Or.inr⟩

instance : IsTrans (String × Nat) lenDescOrder :=
  ⟨fun _ _ _ h1 h2 => Nat.le_trans h2 h1⟩

/-- The `OrderedDict(sorted(...))` built by the logger setup. -/
def sortByLenDesc (l : List (String × Nat)) : List (String × Nat) :=
  l.insertionSort lenDescOrder

/-- The `logger` configuration section as the setup reads it: the
optional `default` entry and the optional `logs` mapping (dict items
in insertion order). -/
structure LoggerSection where
  dflt : Option String
  logs : Option (List (String × LVal))

/-- The severity a `logs` value converts to: `LOGSEVERITY[v.upper()]`;
an int value has no `.upper()` (`AttributeError`), an unknown name is
a `KeyError` — both modelled as `none`. -/
def sevOfVal : LVal → Option Nat
  | .lstr s => LOGSEVERITY (pyUpper s)
  | .lnum _ => none

/-- The in-place conversion loop
`config['logger']['logs'][key] = LOGSEVERITY[value.upper()]`: returns
the mapping as it stands when the loop ends (fully converted, or
converted up to the entry that raised, that entry and the rest left
untouched), and `some` of the numeric pairs when every entry
converted. -/
def convertLogs : List (String × LVal) → List (String × LVal) × Option (List (String × Nat))
  | [] => ([], some [])
  | (k, v) :: rest =>
    match sevOfVal v with
    | some n =>
      match convertLogs rest with
      | (l, some ns) => ((k, .lnum n) :: l, some ((k, n) :: ns))
      | (l, none) => ((k, .lnum n) :: l, none)
    | none => ((k, v) :: rest, none)

/-- Second half of `logger.setup`: process the `logs` mapping with the
already-computed default severity.  Returns the (possibly mutated)
section and `some` filter when setup returns `True`, `none` when it
raises. -/
def loggerSetupLogs (s : LoggerSection) (dn : Nat) :
    LoggerSection × Option HomeAssistantLogFilter :=
  match s.logs with
  | none => (s, some ⟨dn, none⟩)
  | some logs =>
    match convertLogs logs with
    | (newlogs, some pairs) =>
      ({ s with logs := some newlogs }, some ⟨dn, some (sortByLenDesc pairs)⟩)
    | (newlogs, none) =>
      ({ s with logs := some newlogs }, none)

/-- `logger.setup(hass, config)` on the logger section of the shared
configuration: compute the default severity (`DEBUG` when absent; a
bad name raises before the `logs` mapping is touched), then convert
and sort the `logs` mapping.  The first result is the section as later
readers of the shared configuration see it; the second is `some` of
the installed filter, or `none` when setup raised. -/
def logger_setup (s : LoggerSection) :
    LoggerSection × Option HomeAssistantLogFilter :=
  match s.dflt with
  | none => loggerSetupLogs s 10
  | some d =>
    match LOGSEVERITY (pyUpper d) with
    | some dn => loggerSetupLogs s dn
    | none => (s, none)

/-! ### `homeassistant/bootstrap.py`: `process_ha_core_config` -/

/-- `TEMP_CELCIUS` / `TEMP_FAHRENHEIT`. -/
inductive TempUnit
  | celsius
  | fahrenheit
  deriving DecidableEq

/-- The fields of `hass.config` that `process_ha_core_config` touches,
plus the `Entity.overwrite_attribute` registry as a call log
(entity id, attribute keys). -/
structure HassCoreConfig where
  latitude : Option Int
  longitude : Option Int
  location_name : Option String
  time_zone : Option String
  temperature_unit : Option TempUnit
  overwrites : List (String × List String)
  deriving DecidableEq

/-- The `[homeassistant]` configuration section: raw (string) values,
`none` when the key is absent.  A `customize` entry whose value is not
a mapping is recorded as `none` (it is skipped). -/
structure CoreSection where
  latitude : Option String
  longitude : Option String
  name : Option String
  time_zone : Option String
  customize : Option (List (String × Option (List String)))
  temperature_unit : Option String

/-- `detect_location_info()` result shape.  Coordinates are abstract
numeric tokens: none of the verified properties computes with them. -/
structure LocationInfo where
  latitude : Int
  longitude : Int
  city : String
  use_fahrenheit : Bool
  time_zone : String

/-- External collaborators of `process_ha_core_config`: Python
`float()` (a `ValueError` is `none`; values as abstract tokens),
`date_util.get_time_zone` (unresolvable name is `none`), and
`loc_util.detect_location_info()`. -/
structure GeoEnv where
  parseFloat : String → Option Int
  get_time_zone : String → Option String
  detect : Option LocationInfo

/-- The `set_time_zone` helper: do nothing on `None`, set the zone only
when the name resolves (it also sets the process default zone, a side
effect outside this state). -/
def set_time_zone (g : GeoEnv) (tz? : Option String)
    (hac : HassCoreConfig) : HassCoreConfig :=
  match tz? with
  | none => hac
  | some s =>
    match g.get_time_zone s with
    | some tz => { hac with time_zone := some tz }
    | none => hac

/-- The explicit-configuration part of `process_ha_core_config`: the
typed-field loop (a `ValueError` from `float` leaves the attribute
untouched), `set_time_zone`, the `customize` registration, and the
temperature-unit markers (any value other than `'C'`/`'F'` is silently
ignored). -/
def applyExplicit (g : GeoEnv) (cfg : CoreSection)
    (hac0 : HassCoreConfig) : HassCoreConfig :=
  let hac1 :=
    match cfg.latitude with
    | none => hac0
    | some raw =>
      match g.parseFloat raw with
      | some v => { hac0 with latitude := some v }
      | none => hac0
  let hac2 :=
    match cfg.longitude with
    | none => hac1
    | some raw =>
      match g.parseFloat raw with
      | some v => { hac1 with longitude := some v }
      | none => hac1
  let hac3 :=
    match cfg.name with
    | none => hac2
    | some raw => { hac2 with location_name := some raw }
  let hac4 := set_time_zone g cfg.time_zone hac3
  let hac5 :=
    match cfg.customize with
    | none => hac4
    | some entries =>
      { hac4 with overwrites := hac4.overwrites ++
          entries.filterMap (fun p => p.2.map (fun attrs => (p.1, attrs))) }
  match cfg.temperature_unit with
  | none => hac5
  | some u =>
    if u = "C" then { hac5 with temperature_unit := some .celsius }
    else if u = "F" then { hac5 with temperature_unit := some .fahrenheit }
    else hac5

/-- The auto-detection tail of `process_ha_core_config`: return early
when latitude, longitude, temperature unit and time zone are all set;
otherwise call the location service once and fill only still-unset
fields — latitude/longitude as a pair only when both are unset. -/
def autoDetect (g : GeoEnv) (hac : HassCoreConfig) : HassCoreConfig :=
  if hac.latitude.isSome ∧ hac.longitude.isSome ∧
      hac.temperature_unit.isSome ∧ hac.time_zone.isSome then
    hac
  else
    match g.detect with
    | none => hac
    | some info =>
      let h1 :=
        if hac.latitude = none ∧ hac.longitude = none then
          { hac with latitude := some info.latitude,
                     longitude := some info.longitude }
        else hac
      let detUnit : TempUnit :=
        if info.use_fahrenheit then .fahrenheit else .celsius
      let h2 :=
        if h1.temperature_unit = none then
          { h1 with temperature_unit := some detUnit }
        else h1
      let h3 :=
        if h2.location_name = none then
          { h2 with location_name := some info.city }
        else h2
      if h3.time_zone = none then set_time_zone g (some info.time_zone) h3
      else h3

/-- `process_ha_core_config(hass, config)`. -/
def process_ha_core_config (g : GeoEnv) (cfg : CoreSection)
    (hac : HassCoreConfig) : HassCoreConfig :=
  autoDetect g (applyExplicit g cfg hac)

/-! ### The specification's reading of the log filter rules -/

/-- The spec's evaluation rule, stated directly: the longest override
name that is a prefix of the record's namespace determines the
threshold; with no matching override the default applies; the record
is admitted iff its level reaches the applicable threshold. -/
def specAdmit (l : List (String × Nat)) (dflt : Nat) (r : LogRecord) : Prop :=
  (∃ p ∈ l, startswith r.name p.1 = true ∧
      (∀ q ∈ l, startswith r.name q.1 = true →
        q.1.data.length ≤ p.1.data.length) ∧
      r.levelno ≥ p.2) ∨
  ((∀ q ∈ l, startswith r.name q.1 = false) ∧ r.levelno ≥ dflt)

/-! ### Concrete instances used by the witnesses -/

/-- Example registry: domain "b" depends on "a"; domain "r" declares
three requirements; domain "x" has a setup entry point that raises;
every other setup returns `True`. -/
def exReg : String → Component := fun d =>
  { DOMAIN := d
    DEPENDENCIES := if d = "b" then ["a"] else []
    REQUIREMENTS := if d = "r" then some ["pkg1", "pkg2", "pkg3"] else none
    setup := fun _ => if d = "x" then .raised else .ok true }

/-- Example environment: installing "pkg2" fails, everything else
succeeds; pip is not skipped; the resolver orders "b" after its
dependency "a". -/
def exEnv : Env :=
  { reg := exReg
    installOK := fun q => q ≠ "pkg2"
    skip_pip := false
    loadOrder := fun d => if d = "b" then ["a", "b"] else [d] }

/-- Fresh runtime state. -/
def exState0 : HassState := ⟨[], 0, []⟩

/-- Runtime state in which "a" is already initialized. -/
def exStateA : HassState := ⟨["a"], 1, ["a"]⟩

/-- A configuration with sections for two domains. -/
def cfgAB : Config := [("a", [("x", "1")]), ("b", [("y", "2")])]

/-- Example collaborators for the core-config processor: "10.0" parses
to the token 10, any time-zone name resolves to itself, and the
location service reports Amsterdam with Celsius. -/
def exGeo : GeoEnv :=
  { parseFloat := fun s => if s = "10.0" then some 10 else none
    get_time_zone := fun s => some s
    detect := some ⟨52, 4, "Amsterdam", false, "Europe/Amsterdam"⟩ }

/-- A core section that sets only the latitude. -/
def exCoreCfg : CoreSection :=
  { latitude := some "10.0"
    longitude := none
    name := none
    time_zone := none
    customize := none
    temperature_unit := none }

/-- Entirely unset core config state. -/
def exHac0 : HassCoreConfig :=
  { latitude := none
    longitude := none
    location_name := none
    time_zone := none
    temperature_unit := none
    overwrites := [] }

/-- Example logger section: a valid default and one string-valued
`logs` entry. -/
def exLoggerSec : LoggerSection :=
  { dflt := some "info"
    logs := some [("homeassistant.components", LVal.lstr "debug"),
                  ("homeassistant.components.camera", LVal.lstr "critical")] }

/-! ## Helper lemmas -/

/-- The result state of `_setup_component` either is the input state, or
appends exactly `component.DOMAIN` to the initialized set with every
declared dependency already a member of the input set. -/
theorem scomp_components_cases (e : Env) (d : String) (cfg : Config)
    (s : HassState) :
    (_setup_component e d cfg s).s.components = s.components ∨
    ((_setup_component e d cfg s).s.components
        = s.components ++ [(e.reg d).DOMAIN] ∧
      ∀ dep ∈ (e.reg d).DEPENDENCIES, dep ∈ s.components) := by
  unfold _setup_component
  split
  · exact Or.inl rfl
  dsimp only
  split
  · exact Or.inl rfl
  next hmiss =>
    split
    · exact Or.inl rfl
    split
    · exact Or.inl rfl
    · exact Or.inl rfl
    · refine Or.inr ⟨?_, ?_⟩
      · split <;> rfl
      · intro dep hdep
        have hnil : (e.reg d).DEPENDENCIES.filter
            (fun x => decide (x ∉ s.components)) = [] := by
          by_contra hne
          exact hmiss hne
        have := List.filter_eq_nil_iff.mp hnil dep hdep
        simpa using this

/-- Appending a domain whose dependencies are all already present keeps
the dependency-order invariant. -/
theorem depsRespected_append (e : Env) (l : List String) (d : String)
    (hl : depsRespected e l)
    (hd : ∀ dep ∈ (e.reg d).DEPENDENCIES, dep ∈ l) :
    depsRespected e (l ++ [d]) := by
  intro i h dep hdep
  rcases Nat.lt_or_ge i l.length with hi | hi
  · have hget : (l ++ [d])[i] = l[i] := List.getElem_append_left hi
    rw [hget] at hdep
    rw [List.take_append_of_le_length (Nat.le_of_lt hi)]
    exact hl i hi dep hdep
  · have hlen : i = l.length := by
      have hi2 : i < l.length + 1 := by simpa using h
      omega
    subst hlen
    have hget : (l ++ [d])[l.length] = d := by simp
    rw [hget] at hdep
    rw [List.take_append_of_le_length (Nat.le_refl _), List.take_length]
    exact hd dep hdep

/-- `_setup_component` preserves the dependency-order invariant of the
initialized set (for a coherent registry). -/
theorem scomp_preserves (e : Env) (hreg : ∀ x, (e.reg x).DOMAIN = x)
    (d : String) (cfg : Config) (s : HassState)
    (hs : depsRespected e s.components) :
    depsRespected e (_setup_component e d cfg s).s.components := by
  rcases scomp_components_cases e d cfg s with h | ⟨h, hdeps⟩
  · rw [h]; exact hs
  · rw [h, hreg d]
    exact depsRespected_append e s.components d hs hdeps

/-- The `setup_component` loop preserves the dependency-order
invariant. -/
theorem setupSeq_preserves (e : Env) (hreg : ∀ x, (e.reg x).DOMAIN = x)
    (cfg : Config) :
    ∀ (ds : List String) (s : HassState), depsRespected e s.components →
      depsRespected e (setupSeq e cfg ds s).2.components := by
  intro ds
  induction ds with
  | nil => intro s hs; exact hs
  | cons d rest ih =>
    intro s hs
    have hstep := scomp_preserves e hreg d cfg s hs
    unfold setupSeq
    dsimp only
    split
    · exact ih _ hstep
    · exact hstep

/-- Full case analysis of `_setup_component`: already-initialized
short circuit, failure with untouched state, or success with the
domain appended. -/
theorem scomp_cases (e : Env) (d : String) (cfg : Config) (s : HassState) :
    (d ∈ s.components ∧ _setup_component e d cfg s = ⟨true, s, [], []⟩) ∨
    ((_setup_component e d cfg s).ok = false ∧
      (_setup_component e d cfg s).s = s) ∨
    ((_setup_component e d cfg s).ok = true ∧
      (_setup_component e d cfg s).s.components
        = s.components ++ [(e.reg d).DOMAIN] ∧
      ∀ dep ∈ (e.reg d).DEPENDENCIES, dep ∈ s.components) := by
  unfold _setup_component
  split
  next hmem => exact Or.inl ⟨hmem, rfl⟩
  dsimp only
  split
  · exact Or.inr (Or.inl ⟨rfl, rfl⟩)
  next hmiss =>
    have hdeps : ∀ dep ∈ (e.reg d).DEPENDENCIES, dep ∈ s.components := by
      intro dep hdep
      have hnil : (e.reg d).DEPENDENCIES.filter
          (fun x => decide (x ∉ s.components)) = [] := by
        by_contra hne
        exact hmiss hne
      have := List.filter_eq_nil_iff.mp hnil dep hdep
      simpa using this
    split
    · exact Or.inr (Or.inl ⟨rfl, rfl⟩)
    split
    · exact Or.inr (Or.inl ⟨rfl, rfl⟩)
    · exact Or.inr (Or.inl ⟨rfl, rfl⟩)
    · refine Or.inr (Or.inr ⟨rfl, ?_, hdeps⟩)
      split <;> rfl

/-- If `_setup_component` reports success, the domain is in the
resulting initialized set (for a coherent registry). -/
theorem scomp_ok_mem (e : Env) (hreg : ∀ x, (e.reg x).DOMAIN = x)
    (d : String) (cfg : Config) (s : HassState)
    (hok : (_setup_component e d cfg s).ok = true) :
    d ∈ (_setup_component e d cfg s).s.components := by
  rcases scomp_cases e d cfg s with ⟨hmem, heq⟩ | ⟨hfalse, _⟩ | ⟨_, hcomp, _⟩
  · rw [heq]; exact hmem
  · rw [hok] at hfalse; cases hfalse
  · rw [hcomp, hreg d]; simp

/-- The requirement loop stops at the first failing requirement: with
all of `pre` installable and `r` not, exactly `pre ++ [r]` is attempted
and the loop fails. -/
theorem installSeq_fail (e : Env) (pre : List String) (r : String)
    (rest : List String)
    (hpre : ∀ q ∈ pre, e.installOK q = true)
    (hr : e.installOK r = false) :
    installSeq e (pre ++ r :: rest) = (false, pre ++ [r]) := by
  induction pre with
  | nil => simp [installSeq, hr]
  | cons q qs ih =>
    have hq : e.installOK q = true := hpre q (by simp)
    have ih2 := ih (fun x hx => hpre x (by simp [hx]))
    simp [installSeq, hq, ih2]

/-- In a list with the dependency-order invariant, every transitive
dependency of the element at position `i` occurs among the first `i`
elements. -/
theorem transDep_before (e : Env) (l : List String)
    (hl : depsRespected e l) :
    ∀ {a c : String}, TransDep e a c →
      ∀ i, (h : i < l.length) → l[i] = c → a ∈ l.take i := by
  intro a c htd
  induction htd with
  | direct hdep =>
    intro i h hc
    exact hl i h _ (by rw [hc]; exact hdep)
  | tail _ _ ih1 ih2 =>
    intro i h hc
    have hb := ih2 i h hc
    rw [List.mem_take_iff_getElem] at hb
    obtain ⟨j, hj, hbj⟩ := hb
    have hj2 := Nat.lt_min.mp hj
    have ha := ih1 j hj2.2 hbj
    rw [List.mem_take_iff_getElem] at ha ⊢
    obtain ⟨k, hk, hak⟩ := ha
    have hk2 := Nat.lt_min.mp hk
    exact ⟨k, Nat.lt_min.mpr ⟨by omega, hk2.2⟩, hak⟩

/-! ## Claim theorems -/

/-- Claim C1: whenever a domain is appended to the initialized set by
`_setup_component` (also when reached through `setup_component`), every
dependency declared in its `DEPENDENCIES` list is already a member, so
both procedures preserve the dependency-order invariant of
`hass.config.components`; consequently, in any initialized set with
that invariant, every transitive dependency of a domain occurs strictly
before the domain itself. -/
theorem setup_dependency_order (e : Env)
    (hreg : ∀ x, (e.reg x).DOMAIN = x) (s : HassState)
    (hs : depsRespected e s.components) :
    (∀ d cfg, depsRespected e (_setup_component e d cfg s).s.components) ∧
    (∀ d cfg?, depsRespected e (setup_component e d cfg? s).2.components) ∧
    (∀ l, depsRespected e l → ∀ i, (h : i < l.length) → ∀ d',
      TransDep e d' l[i] → d' ∈ l.take i) := by
  refine ⟨fun d cfg => scomp_preserves e hreg d cfg s hs, ?_, ?_⟩
  · intro d cfg?
    unfold setup_component
    split
    · exact hs
    dsimp only
    split
    · exact hs
    · exact setupSeq_preserves e hreg _ _ s hs
  · intro l hl i h d' htd
    exact transDep_before e l hl htd i h rfl

/-- Claim C1 witness: bringing up "b" (which depends on "a") from a
fresh state through the resolver order keeps the dependency-order
invariant. -/
theorem setup_dependency_order_witness :
    depsRespected exEnv
      ((setup_component exEnv "b" none exState0).2.components) := by
  have hs : depsRespected exEnv exState0.components := by
    intro i h dep hdep
    simp [exState0] at h
  exact (setup_dependency_order exEnv (fun _ => rfl) exState0 hs).2.1 "b" none

/-- Claim C2: if the domain is already in the initialized set, both
`_setup_component` and `setup_component` return success immediately
with the state untouched and no `component.setup` invocation; and after
a successful `_setup_component`, a repeated call performs no further
setup invocation — the setup entry point runs at most once per
domain. -/
theorem setup_component_idempotent (e : Env)
    (hreg : ∀ x, (e.reg x).DOMAIN = x) (d : String) (cfg : Config)
    (cfg? : Option Config) (s : HassState) :
    (d ∈ s.components →
      _setup_component e d cfg s = ⟨true, s, [], []⟩ ∧
      setup_component e d cfg? s = (true, s)) ∧
    ((_setup_component e d cfg s).ok = true →
      _setup_component e d cfg ((_setup_component e d cfg s).s)
        = ⟨true, (_setup_component e d cfg s).s, [], []⟩) := by
  constructor
  · intro hmem
    constructor
    · unfold _setup_component
      rw [if_pos hmem]
    · unfold setup_component
      rw [if_pos hmem]
  · intro hok
    have hmem := scomp_ok_mem e hreg d cfg s hok
    set t := (_setup_component e d cfg s).s with ht
    unfold _setup_component
    rw [if_pos hmem]

/-- Claim C2 witness: with "a" already initialized, the second call is
an exact no-op for both entry points. -/
theorem setup_component_idempotent_witness :
    _setup_component exEnv "a" cfgAB exStateA = ⟨true, exStateA, [], []⟩ ∧
    setup_component exEnv "a" (some cfgAB) exStateA = (true, exStateA) :=
  (setup_component_idempotent exEnv (fun _ => rfl) "a" cfgAB
    (some cfgAB) exStateA).1 (by simp [exStateA])

/-- Claim C3: with pip not skipped and declared requirements
`pre ++ r :: rest` where all of `pre` install and `r` fails,
`_setup_component` on a fresh domain with satisfied dependencies
returns failure, never invokes the setup entry point, leaves the state
(hence the initialized set) untouched, and attempts exactly
`pre ++ [r]` — nothing after the failing requirement. -/
theorem requirements_gate_setup (e : Env) (d : String) (cfg : Config)
    (s : HassState) (pre rest : List String) (r : String)
    (hskip : e.skip_pip = false)
    (hreq : (e.reg d).REQUIREMENTS = some (pre ++ r :: rest))
    (hpre : ∀ q ∈ pre, e.installOK q = true)
    (hr : e.installOK r = false)
    (hmem : d ∉ s.components)
    (hdeps : ∀ dep ∈ (e.reg d).DEPENDENCIES, dep ∈ s.components) :
    _setup_component e d cfg s = ⟨false, s, [], pre ++ [r]⟩ := by
  have hnil : (e.reg d).DEPENDENCIES.filter
      (fun x => decide (x ∉ s.components)) = [] := by
    rw [List.filter_eq_nil_iff]
    intro a ha
    simp [hdeps a ha]
  have hhr : _handle_requirements e (e.reg d) = (false, pre ++ [r]) := by
    unfold _handle_requirements
    rw [hskip, hreq]
    exact installSeq_fail e pre r rest hpre hr
  unfold _setup_component
  rw [if_neg hmem]
  dsimp only
  rw [hnil]
  simp [hhr]

/-- Claim C3 witness: domain "r" declares requirements
["pkg1", "pkg2", "pkg3"] and "pkg2" fails to install: setup fails,
no setup invocation, state untouched, and "pkg3" is never attempted. -/
theorem requirements_gate_setup_witness :
    _setup_component exEnv "r" cfgAB exState0
      = ⟨false, exState0, [], ["pkg1", "pkg2"]⟩ :=
  requirements_gate_setup exEnv "r" cfgAB exState0 ["pkg1"] ["pkg3"]
    "pkg2" rfl rfl (by decide) (by decide) (by simp [exState0])
    (by intro dep hdep; simp [exReg, exEnv] at hdep)

/-- Claim C4: when the component's setup entry point raises, the fault
is converted at the orchestrator boundary into a `False` return value:
the state is untouched, so the domain is not added to the initialized
set, no worker is added, and no component-loaded event is fired. -/
theorem setup_fault_contained (e : Env) (d : String) (cfg : Config)
    (s : HassState)
    (hmem : d ∉ s.components)
    (hdeps : ∀ dep ∈ (e.reg d).DEPENDENCIES, dep ∈ s.components)
    (hreqok : (_handle_requirements e (e.reg d)).1 = true)
    (hraise : (e.reg d).setup cfg = .raised) :
    _setup_component e d cfg s
      = ⟨false, s, [(d, cfg)], (_handle_requirements e (e.reg d)).2⟩ := by
  have hnil : (e.reg d).DEPENDENCIES.filter
      (fun x => decide (x ∉ s.components)) = [] := by
    rw [List.filter_eq_nil_iff]
    intro a ha
    simp [hdeps a ha]
  unfold _setup_component
  rw [if_neg hmem]
  dsimp only
  rw [hnil]
  simp [hreqok, hraise]

/-- Claim C4 witness: domain "x" raises in its setup entry point; the
call returns failure with the fresh state untouched. -/
theorem setup_fault_contained_witness :
    _setup_component exEnv "x" cfgAB exState0
      = ⟨false, exState0, [("x", cfgAB)], []⟩ :=
  setup_fault_contained exEnv "x" cfgAB exState0 (by simp [exState0])
    (by intro dep hdep; simp [exReg, exEnv] at hdep) rfl rfl

/-- Claim C7, amended: the setup entry point, when invoked by
`_setup_component`, receives the *whole* configuration mapping exactly
as supplied (`component.setup(hass, config)`), not merely the domain's
own section; the domain's options are obtained by lookup in it, a
missing section yielding the empty options mapping, and
`setup_component` substitutes an empty `defaultdict(dict)` when the
caller supplied no configuration. -/
theorem setup_receives_whole_config (e : Env) (d : String) (cfg : Config)
    (s : HassState) :
    ((_setup_component e d cfg s).setupArgs = [] ∨
      (_setup_component e d cfg s).setupArgs = [(d, cfg)]) ∧
    (∀ dom, cfgGet ([] : Config) dom = []) ∧
    (∀ dom s0, setup_component e dom none s0
      = setup_component e dom (some []) s0) := by
  refine ⟨?_, fun dom => rfl, fun dom s0 => rfl⟩
  unfold _setup_component
  split
  · exact Or.inl rfl
  dsimp only
  split
  · exact Or.inl rfl
  split
  · exact Or.inl rfl
  split
  · exact Or.inr rfl
  · exact Or.inr rfl
  · exact Or.inr rfl

/-- Claim C7 counterexample: setting up domain "a" invokes its setup
entry point with the full two-section configuration — an argument from
which domain "b"'s section is still retrievable — not with "a"'s own
options mapping alone.  This refutes the claim that the entry point is
invoked with (only) the domain's own options. -/
theorem setup_receives_whole_config_cx :
    (_setup_component exEnv "a" cfgAB exState0).setupArgs = [("a", cfgAB)] ∧
    cfgGet cfgAB "b" = [("y", "2")] ∧
    ([("y", "2")] : Options) ≠ [] := by
  refine ⟨by decide, by decide, by decide⟩

/-- Claim C8: `install_package` returns `True` without invoking pip
when a satisfying distribution is found in the private target directory
or the ambient environment; otherwise it invokes pip and returns `True`
exactly when the subprocess exits with status zero, a failure to launch
the subprocess being caught and reported as `False`. -/
theorem install_package_gates_on_check (e : PkgEnv) (hasTarget : Bool) :
    (((hasTarget && e.satTarget) || e.satEnv) = true →
      install_package e hasTarget = ⟨true, false⟩) ∧
    (check_package_exists e hasTarget = false →
      (install_package e hasTarget).invoked = true ∧
      ((install_package e hasTarget).ok = true ↔ e.callResult = some 0)) ∧
    (check_package_exists e hasTarget = false → e.callResult = none →
      install_package e hasTarget = ⟨false, true⟩) := by
  refine ⟨?_, ?_, ?_⟩
  · intro hfound
    unfold install_package
    rw [if_pos (show check_package_exists e hasTarget = true from hfound)]
  · intro hnone
    unfold install_package
    rw [if_neg (by simp [hnone])]
    cases hc : e.callResult with
    | none => simp
    | some code =>
      constructor
      · rfl
      · constructor
        · intro hok
          simp at hok
          simp [hok]
        · intro hsome
          simp at hsome
          simp [hsome]
  · intro hnone hlaunch
    unfold install_package
    rw [if_neg (by simp [hnone]), hlaunch]

/-- Claim C8 witness: a package present in the ambient environment is
not installed again; a missing package whose pip launch raises yields
`False` with an attempted invocation. -/
theorem install_package_gates_on_check_witness :
    install_package ⟨false, true, none⟩ true = ⟨true, false⟩ ∧
    install_package ⟨false, false, none⟩ false = ⟨false, true⟩ :=
  ⟨(install_package_gates_on_check ⟨false, true, none⟩ true).1 (by decide),
    (install_package_gates_on_check ⟨false, false, none⟩ false).2.2
      (by decide) rfl⟩

/-- The lock invariant holds initially. -/
theorem lockInv_init : LockInv lockInit := by
  refine ⟨?_, ?_, ?_, ?_, ?_⟩
  · intro t h
    cases h
  · exact Nat.zero_le 1
  · simp [lockInit]
  · intro t _
    rfl
  · intro t h
    rcases h with h | h <;> cases h

/-- The lock invariant is preserved by every interleaving step. -/
theorem lockInv_step {st st' : LockState} (hinv : LockInv st)
    (hstep : LockStep st st') : LockInv st' := by
  obtain ⟨h1, h2, h3, h4, h5⟩ := hinv
  cases hstep with
  | acquire t hpc hlock =>
    refine ⟨?_, h2, h3, ?_, ?_⟩
    · intro u hu
      by_cases hut : u = t
      · subst hut; rfl
      · simp only [if_neg hut] at hu
        have hl := h1 u hu
        rw [hlock] at hl
        cases hl
    · intro u hu
      by_cases hut : u = t
      · subst hut
        simp only [if_pos rfl] at hu
        cases hu
      · simp only [if_neg hut] at hu
        exact h4 u hu
    · intro u hu
      by_cases hut : u = t
      · subst hut
        simp only [if_pos rfl] at hu
        rcases hu with hu | hu <;> cases hu
      · simp only [if_neg hut] at hu
        exact h5 u hu
  | checkFound t hpc hlock hinst =>
    refine ⟨?_, h2, h3, ?_, ?_⟩
    · intro u hu
      by_cases hut : u = t
      · subst hut; exact hlock
      · simp only [if_neg hut] at hu
        exact h1 u hu
    · intro u hu
      by_cases hut : u = t
      · subst hut
        simp only [if_pos rfl] at hu
        cases hu
      · simp only [if_neg hut] at hu
        exact h4 u hu
    · intro u hu
      by_cases hut : u = t
      · exact hinst
      · simp only [if_neg hut] at hu
        exact h5 u hu
  | checkMissing t hpc hlock hinst =>
    refine ⟨?_, h2, h3, ?_, ?_⟩
    · intro u hu
      by_cases hut : u = t
      · subst hut; exact hlock
      · simp only [if_neg hut] at hu
        exact h1 u hu
    · intro u _
      exact hinst
    · intro u hu
      by_cases hut : u = t
      · subst hut
        simp only [if_pos rfl] at hu
        rcases hu with hu | hu <;> cases hu
      · simp only [if_neg hut] at hu
        exact h5 u hu
  | callPip t hpc hlock =>
    have hinst : st.installed = false := h4 t hpc
    have hcount : st.installCount = 0 := by
      by_contra hne
      have h1le : 1 ≤ st.installCount := Nat.one_le_iff_ne_zero.mpr hne
      have htrue := h3.mpr h1le
      rw [hinst] at htrue
      cases htrue
    refine ⟨?_, ?_, ?_, ?_, ?_⟩
    · intro u hu
      by_cases hut : u = t
      · subst hut; exact hlock
      · simp only [if_neg hut] at hu
        exact h1 u hu
    · show st.installCount + 1 ≤ 1
      omega
    · constructor
      · intro _
        show 1 ≤ st.installCount + 1
        omega
      · intro _
        rfl
    · intro u hu
      by_cases hut : u = t
      · subst hut
        simp only [if_pos rfl] at hu
        cases hu
      · simp only [if_neg hut] at hu
        have hl := h1 u (by rw [hu]; rfl)
        rw [hlock] at hl
        injection hl with hl2
        exact absurd hl2.symm hut
    · intro u _
      rfl
  | release t hpc hlock =>
    refine ⟨?_, h2, h3, ?_, ?_⟩
    · intro u hu
      by_cases hut : u = t
      · subst hut
        simp only [if_pos rfl] at hu
        cases hu
      · simp only [if_neg hut] at hu
        have hl := h1 u hu
        rw [hlock] at hl
        injection hl with hl2
        exact absurd hl2.symm hut
    · intro u hu
      by_cases hut : u = t
      · subst hut
        simp only [if_pos rfl] at hu
        cases hu
      · simp only [if_neg hut] at hu
        exact h4 u hu
    · intro u hu
      by_cases hut : u = t
      · exact h5 t (Or.inl hpc)
      · simp only [if_neg hut] at hu
        exact h5 u hu

/-- The lock invariant holds in every reachable state. -/
theorem lockInv_reachable {st : LockState} (h : LockReachable st) :
    LockInv st := by
  unfold LockReachable at h
  induction h with
  | refl => exact lockInv_init
  | tail _ hstep ih => exact lockInv_step ih hstep

/-- Claim C9: in every reachable interleaving of two concurrent
`install_package` calls for the same specifier, the pip subprocess is
only ever invoked by the thread holding `INSTALL_LOCK`, the two threads
are never both at the invocation point, and when both calls have
returned exactly one pip invocation has happened. -/
theorem install_lock_exclusion (st : LockState) (h : LockReachable st) :
    (∀ t, st.pc t = .run → st.lock = some t) ∧
    ¬(st.pc false = .run ∧ st.pc true = .run) ∧
    (st.pc false = .done → st.pc true = .done → st.installCount = 1) := by
  obtain ⟨h1, h2, h3, _, h5⟩ := lockInv_reachable h
  refine ⟨?_, ?_, ?_⟩
  · intro t ht
    exact h1 t (by rw [ht]; rfl)
  · rintro ⟨hf, ht⟩
    have hA := h1 false (by rw [hf]; rfl)
    have hB := h1 true (by rw [ht]; rfl)
    rw [hA] at hB
    injection hB with hB2
    cases hB2
  · intro hdf hdt
    have hi : st.installed = true := h5 false (Or.inr hdf)
    have hle := h3.mp hi
    omega

/-- Claim C9 witness: an explicit complete interleaving of the two
concurrent calls reaches `lockFinal`, where both threads have
returned, and the theorem applied there (its antecedents discharged by
evaluation) yields that exactly one pip invocation happened; applied
at the intermediate state `lockS2`, where thread `false` really is at
the pip-invocation point, it yields that this thread holds the
lock. -/
theorem install_lock_exclusion_witness :
    LockReachable lockFinal ∧
    lockFinal.pc false = .done ∧ lockFinal.pc true = .done ∧
    lockFinal.installCount = 1 ∧
    lockS2.pc false = .run ∧ lockS2.lock = some false := by
  have h1 : LockStep lockInit lockS1 := LockStep.acquire lockInit false rfl rfl
  have h2 : LockStep lockS1 lockS2 :=
    LockStep.checkMissing lockS1 false rfl rfl rfl
  have h3 : LockStep lockS2 lockS3 := LockStep.callPip lockS2 false rfl rfl
  have h4 : LockStep lockS3 lockS4 := LockStep.release lockS3 false rfl rfl
  have h5 : LockStep lockS4 lockS5 := LockStep.acquire lockS4 true rfl rfl
  have h6 : LockStep lockS5 lockS6 :=
    LockStep.checkFound lockS5 true rfl rfl rfl
  have h7 : LockStep lockS6 lockFinal := LockStep.release lockS6 true rfl rfl
  have r2 : LockReachable lockS2 :=
    (Relation.ReflTransGen.refl.tail h1).tail h2
  have r7 : LockReachable lockFinal :=
    ((((r2.tail h3).tail h4).tail h5).tail h6).tail h7
  refine ⟨r7, rfl, rfl, ?_, rfl, ?_⟩
  · exact (install_lock_exclusion lockFinal r7).2.2 rfl rfl
  · exact (install_lock_exclusion lockS2 r2).1 false rfl

/-- Two prefixes of the same string with equal lengths are equal. -/
theorem startswith_eq_of_length {s p q : String}
    (hp : startswith s p = true) (hq : startswith s q = true)
    (hlen : p.data.length = q.data.length) : p = q := by
  unfold startswith at hp hq
  rw [ List.isPrefixOf_iff_prefix] at hp hq
  exact String.ext
    ((List.prefix_of_prefix_length_le hp hq (Nat.le_of_eq hlen)).eq_of_length hlen)

/-- The spec's verdict only inspects membership, so it transfers along
permutations. -/
theorem specAdmit_of_perm {l1 l2 : List (String × Nat)} (hp : l1.Perm l2)
    (dflt : Nat) (r : LogRecord) (h : specAdmit l1 dflt r) :
    specAdmit l2 dflt r := by
  rcases h with ⟨p, hmem, hm, hmax, hge⟩ | ⟨hnone, hge⟩
  · exact Or.inl ⟨p, hp.mem_iff.mp hmem, hm,
      fun q hq hsq => hmax q (hp.mem_iff.mpr hq) hsq, hge⟩
  · exact Or.inr ⟨fun q hq => hnone q (hp.mem_iff.mpr hq), hge⟩

/-- A head entry whose name does not match the record leaves the spec's
verdict unchanged. -/
theorem specAdmit_cons_iff {p : String × Nat} {rest : List (String × Nat)}
    {dflt : Nat} {r : LogRecord}
    (hp : startswith r.name p.1 = false) :
    specAdmit (p :: rest) dflt r ↔ specAdmit rest dflt r := by
  constructor
  · rintro (⟨q, hqmem, hqm, hqmax, hqge⟩ | ⟨hnone, hge⟩)
    · rcases List.mem_cons.mp hqmem with hq | hq
      · rw [hq] at hqm
        rw [hqm] at hp
        cases hp
      · exact Or.inl ⟨q, hq, hqm,
          fun q2 hq2 hsq2 => hqmax q2 (List.mem_cons_of_mem p hq2) hsq2, hqge⟩
    · exact Or.inr ⟨fun q hq => hnone q (List.mem_cons_of_mem p hq), hge⟩
  · rintro (⟨q, hqmem, hqm, hqmax, hqge⟩ | ⟨hnone, hge⟩)
    · refine Or.inl ⟨q, List.mem_cons_of_mem p hqmem, hqm, ?_, hqge⟩
      intro q2 hq2 hsq2
      rcases List.mem_cons.mp hq2 with h2 | h2
      · rw [h2] at hsq2
        rw [hsq2] at hp
        cases hp
      · exact hqmax q2 h2 hsq2
    · refine Or.inr ⟨?_, hge⟩
      intro q hq
      rcases List.mem_cons.mp hq with h2 | h2
      · rw [h2]; exact hp
      · exact hnone q h2

/-- On a list sorted by name length descending whose names are free of
duplicates, the code's first-match scan decides exactly the spec's
longest-matching-prefix rule. -/
theorem filterScan_spec (dflt : Nat) (r : LogRecord) :
    ∀ sl : List (String × Nat), List.Sorted lenDescOrder sl →
      (sl.map Prod.fst).Nodup →
      (filterScan sl dflt r = true ↔ specAdmit sl dflt r) := by
  intro sl
  induction sl with
  | nil =>
    intro _ _
    simp only [filterScan, specAdmit]
    constructor
    · intro h
      exact Or.inr ⟨fun q hq => absurd hq (List.not_mem_nil q), by simpa using h⟩
    · rintro (⟨q, hq, _⟩ | ⟨_, hge⟩)
      · exact absurd hq (List.not_mem_nil q)
      · simpa using hge
  | cons p rest ih =>
    intro hsort hnodup
    have hrel := (List.sorted_cons.mp hsort).1
    have hsort2 := (List.sorted_cons.mp hsort).2
    have hnodup2 : (rest.map Prod.fst).Nodup :=
      (List.nodup_cons.mp (by simpa using hnodup)).2
    have hhead : p.1 ∉ rest.map Prod.fst :=
      (List.nodup_cons.mp (by simpa using hnodup)).1
    by_cases hsw : startswith r.name p.1 = true
    · rw [show filterScan (p :: rest) dflt r = decide (r.levelno ≥ p.2) from
        by simp [filterScan, hsw]]
      constructor
      · intro hge
        refine Or.inl ⟨p, List.mem_cons_self p rest, hsw, ?_, by simpa using hge⟩
        intro q hq _
        rcases List.mem_cons.mp hq with h2 | h2
        · rw [h2]
        · exact hrel q h2
      · rintro (⟨q, hqmem, hqm, hqmax, hqge⟩ | ⟨hnone, _⟩)
        · have hqlen : q.1.data.length ≤ p.1.data.length := by
            rcases List.mem_cons.mp hqmem with h2 | h2
            · rw [h2]
            · exact hrel q h2
          have hplen : p.1.data.length ≤ q.1.data.length :=
            hqmax p (List.mem_cons_self p rest) hsw
          have heq1 : q.1 = p.1 :=
            startswith_eq_of_length hqm hsw (Nat.le_antisymm hqlen hplen)
          rcases List.mem_cons.mp hqmem with h2 | h2
          · rw [h2] at hqge
            simpa using hqge
          · exact absurd (heq1 ▸ List.mem_map_of_mem Prod.fst h2) hhead
        · exact absurd hsw (by simp [hnone p (List.mem_cons_self p rest)])
    · have hsw2 : startswith r.name p.1 = false := by simpa using hsw
      rw [show filterScan (p :: rest) dflt r = filterScan rest dflt r from
        by simp [filterScan, hsw2]]
      rw [ih hsort2 hnodup2]
      exact (specAdmit_cons_iff hsw2).symm

/-- Claim C5: with the override mapping sorted by prefix length
descending (as the logger setup builds it), the filter admits a record
iff its level reaches the threshold of the longest override prefix its
namespace starts with, or the default threshold when none matches; in
particular with rules {default: WARNING, "app.sub": INFO, "app": ERROR}
a record from "app.sub.child" at INFO is admitted and one from
"app.other" at WARNING is rejected. -/
theorem log_filter_longest_prefix_wins (dflt : Nat)
    (l : List (String × Nat)) (r : LogRecord)
    (hnodup : (l.map Prod.fst).Nodup) :
    (HomeAssistantLogFilter.filter ⟨dflt, some (sortByLenDesc l)⟩ r = true ↔
      specAdmit l dflt r) ∧
    HomeAssistantLogFilter.filter
      ⟨30, some (sortByLenDesc [("app.sub", 20), ("app", 40)])⟩
      ⟨"app.sub.child", 20⟩ = true ∧
    HomeAssistantLogFilter.filter
      ⟨30, some (sortByLenDesc [("app.sub", 20), ("app", 40)])⟩
      ⟨"app.other", 30⟩ = false := by
  refine ⟨?_, by decide, by decide⟩
  have hperm := List.perm_insertionSort lenDescOrder l
  have hsorted : List.Sorted lenDescOrder (sortByLenDesc l) :=
    List.sorted_insertionSort lenDescOrder l
  have hnodup2 : ((sortByLenDesc l).map Prod.fst).Nodup :=
    (List.Perm.nodup_iff (hperm.map Prod.fst)).mpr hnodup
  have hfil : HomeAssistantLogFilter.filter ⟨dflt, some (sortByLenDesc l)⟩ r
      = filterScan (sortByLenDesc l) dflt r := rfl
  rw [hfil, filterScan_spec dflt r _ hsorted hnodup2]
  constructor
  · exact specAdmit_of_perm hperm dflt r
  · exact specAdmit_of_perm hperm.symm dflt r

/-- Claim C5 witness: the concrete rule set of the claim, with its
no-duplicate-names hypothesis discharged. -/
theorem log_filter_longest_prefix_wins_witness :
    HomeAssistantLogFilter.filter
      ⟨30, some (sortByLenDesc [("app.sub", 20), ("app", 40)])⟩
      ⟨"app.sub.child", 20⟩ = true ∧
    HomeAssistantLogFilter.filter
      ⟨30, some (sortByLenDesc [("app.sub", 20), ("app", 40)])⟩
      ⟨"app.other", 30⟩ = false :=
  (log_filter_longest_prefix_wins 30 [("app.sub", 20), ("app", 40)]
    ⟨"app.sub.child", 20⟩ (by decide)).2

/-- When the location service returns no result, the auto-detection
tail leaves the state untouched. -/
theorem autoDetect_of_detect_none (g : GeoEnv) (hac : HassCoreConfig)
    (hdet : g.detect = none) : autoDetect g hac = hac := by
  unfold autoDetect
  split
  · rfl
  · rw [hdet]

/-- The auto-detection tail never overwrites a set field, and fills
longitude only when latitude is also unset. -/
theorem autoDetect_preserves (g : GeoEnv) (hac : HassCoreConfig) :
    (∀ v, hac.latitude = some v → (autoDetect g hac).latitude = some v) ∧
    (∀ v, hac.longitude = some v → (autoDetect g hac).longitude = some v) ∧
    (∀ v, hac.temperature_unit = some v →
      (autoDetect g hac).temperature_unit = some v) ∧
    (∀ v, hac.time_zone = some v → (autoDetect g hac).time_zone = some v) ∧
    (∀ v, hac.location_name = some v →
      (autoDetect g hac).location_name = some v) ∧
    (hac.latitude.isSome = true → hac.longitude = none →
      (autoDetect g hac).longitude = none) := by
  rcases hdet : g.detect with _ | info
  · rw [autoDetect_of_detect_none g hac hdet]
    exact ⟨fun v hv => hv, fun v hv => hv, fun v hv => hv, fun v hv => hv,
      fun v hv => hv, fun _ hv => hv⟩
  · obtain ⟨lat, long, name, tz, temp, ov⟩ := hac
    cases lat <;> cases long <;> cases name <;> cases tz <;> cases temp <;>
      cases hgtz : g.get_time_zone info.time_zone <;>
      refine ⟨?_, ?_, ?_, ?_, ?_, ?_⟩ <;>
      · intros
        simp_all [autoDetect, set_time_zone, hdet, hgtz]

/-- Claim C6: auto-detection in `process_ha_core_config` never
overwrites a field that explicit configuration already set, and
latitude/longitude are filled from the detection result only as a pair:
whenever latitude is set and longitude unset after the explicit phase,
longitude is still unset after the whole call. -/
theorem core_config_no_overwrite (g : GeoEnv) (cfg : CoreSection)
    (hac0 : HassCoreConfig) :
    (∀ v, (applyExplicit g cfg hac0).latitude = some v →
      (process_ha_core_config g cfg hac0).latitude = some v) ∧
    (∀ v, (applyExplicit g cfg hac0).longitude = some v →
      (process_ha_core_config g cfg hac0).longitude = some v) ∧
    (∀ v, (applyExplicit g cfg hac0).temperature_unit = some v →
      (process_ha_core_config g cfg hac0).temperature_unit = some v) ∧
    (∀ v, (applyExplicit g cfg hac0).time_zone = some v →
      (process_ha_core_config g cfg hac0).time_zone = some v) ∧
    (∀ v, (applyExplicit g cfg hac0).location_name = some v →
      (process_ha_core_config g cfg hac0).location_name = some v) ∧
    ((applyExplicit g cfg hac0).latitude.isSome = true →
      (applyExplicit g cfg hac0).longitude = none →
      (process_ha_core_config g cfg hac0).longitude = none) :=
  autoDetect_preserves g (applyExplicit g cfg hac0)

/-- Claim C6 witness: latitude explicitly 10.0, longitude absent, and a
location service that would report Amsterdam: latitude keeps its value
and longitude stays unset. -/
theorem core_config_no_overwrite_witness :
    (process_ha_core_config exGeo exCoreCfg exHac0).latitude = some 10 ∧
    (process_ha_core_config exGeo exCoreCfg exHac0).longitude = none :=
  ⟨(core_config_no_overwrite exGeo exCoreCfg exHac0).1 10 (by decide),
    (core_config_no_overwrite exGeo exCoreCfg exHac0).2.2.2.2.2
      (by decide) (by decide)⟩

/-- The conversion loop, on a `logs` mapping whose values are all valid
severity names, converts every value to its numeric level, keeps the
keys, and leaves no string value behind. -/
theorem convertLogs_total :
    ∀ l : List (String × LVal),
      (∀ p ∈ l, ∃ n, sevOfVal p.2 = some n) →
      (convertLogs l).2.isSome = true ∧
      List.Forall₂ (fun p q => q.1 = p.1 ∧
        ∃ n, sevOfVal p.2 = some n ∧ q.2 = LVal.lnum n) l (convertLogs l).1 ∧
      ∀ q ∈ (convertLogs l).1, ∃ n, q.2 = LVal.lnum n := by
  intro l
  induction l with
  | nil =>
    intro _
    exact ⟨rfl, List.Forall₂.nil, fun q hq => absurd hq (List.not_mem_nil q)⟩
  | cons p rest ih =>
    intro h
    obtain ⟨n, hn⟩ := h p (List.mem_cons_self p rest)
    obtain ⟨ihs, ihf, ihall⟩ := ih (fun q hq => h q (List.mem_cons_of_mem p hq))
    obtain ⟨k, v⟩ := p
    rcases hcr : convertLogs rest with ⟨l2, ns?⟩
    rw [hcr] at ihs ihf ihall
    cases ns? with
    | none => cases ihs
    | some ns =>
      have hstep : convertLogs ((k, v) :: rest)
          = ((k, .lnum n) :: l2, some ((k, n) :: ns)) := by
        unfold convertLogs
        rw [show sevOfVal v = some n from hn, hcr]
      rw [hstep]
      refine ⟨rfl, ?_, ?_⟩
      · exact List.Forall₂.cons ⟨rfl, n, hn, rfl⟩ ihf
      · intro q hq
        rcases List.mem_cons.mp hq with h2 | h2
        · exact ⟨n, by rw [h2]⟩
        · exact ihall q h2

/-- Claim C10: `logger.setup` mutates the shared configuration in
place: when the logger section's `logs` mapping holds valid severity
names (and the `default` entry, if present, is valid so that setup
reaches the loop), every value of `config['logger']['logs']` has been
replaced by its numeric severity level after setup, keys preserved and
no severity-name string remaining — a side effect visible to every
later reader of the shared configuration object. -/
theorem logger_setup_mutates_config (s : LoggerSection)
    (l : List (String × LVal))
    (hlogs : s.logs = some l)
    (hvals : ∀ p ∈ l, ∃ n, sevOfVal p.2 = some n)
    (hdflt : s.dflt = none ∨
      ∃ d n, s.dflt = some d ∧ LOGSEVERITY (pyUpper d) = some n) :
    ∃ l2, (logger_setup s).1.logs = some l2 ∧
      List.Forall₂ (fun p q => q.1 = p.1 ∧
        ∃ n, sevOfVal p.2 = some n ∧ q.2 = LVal.lnum n) l l2 ∧
      ∀ q ∈ l2, ∃ n, q.2 = LVal.lnum n := by
  obtain ⟨hsome, hforall, hall⟩ := convertLogs_total l hvals
  have hlogsPart : ∀ dn, (loggerSetupLogs s dn).1.logs
      = some (convertLogs l).1 := by
    intro dn
    unfold loggerSetupLogs
    rw [hlogs]
    rcases hcr : convertLogs l with ⟨l2, ns?⟩
    cases ns? with
    | none =>
      rw [hcr] at hsome
      simp at hsome
    | some ns =>
      simp only [hcr]
  have hmain : (logger_setup s).1.logs = some (convertLogs l).1 := by
    unfold logger_setup
    rcases hdflt with hnone | ⟨d, n, hd, hn⟩
    · rw [hnone]
      exact hlogsPart 10
    · simp only [hd, hn]
      exact hlogsPart n
  exact ⟨(convertLogs l).1, hmain, hforall, hall⟩

/-- Claim C10 witness: a logger section with two string-valued entries
comes back with both replaced by their numeric levels. -/
theorem logger_setup_mutates_config_witness :
    ∃ l2, (logger_setup exLoggerSec).1.logs = some l2 ∧
      List.Forall₂ (fun p q => q.1 = p.1 ∧
        ∃ n, sevOfVal p.2 = some n ∧ q.2 = LVal.lnum n)
        [("homeassistant.components", LVal.lstr "debug"),
         ("homeassistant.components.camera", LVal.lstr "critical")] l2 ∧
      ∀ q ∈ l2, ∃ n, q.2 = LVal.lnum n :=
  logger_setup_mutates_config exLoggerSec
    [("homeassistant.components", LVal.lstr "debug"),
     ("homeassistant.components.camera", LVal.lstr "critical")]
    rfl
    (by
      intro p hp
      rcases List.mem_cons.mp hp with h | h
      · exact ⟨10, by rw [h]; decide⟩
      · rcases List.mem_cons.mp h with h2 | h2
        · exact ⟨50, by rw [h2]; decide⟩
        · exact absurd h2 (List.not_mem_nil p))
    (Or.inr ⟨"info", 20, rfl, by decide⟩)

end HA
